import Mathlib

/-!
Verification of the expense-approval workflow engine of the
expense-management repository.

The engine lives in the backend route handlers: the approvals router
(`PUT /api/approvals/:id`, `PUT /api/approvals/:id/override`, helper
`processApprovalWorkflow`) and the expenses router (`POST /api/expenses`,
`PUT /api/expenses/:id`, helper `determineApprovalWorkflow`).  This file
gives a shallow embedding of those handlers and proves or refutes the
spec's claims about them.

Conventions of the embedding:
* Mongo ObjectIds become `Nat`.
* JS numbers used for money and percentages become `ℚ`.  JS division by
  zero yields `NaN`/`Infinity` while `ℚ` division by zero yields `0`;
  theorems that involve the percentage computation therefore carry a
  `0 < totalApprovers` hypothesis so that both semantics agree.
* Dates become `Nat` tick values supplied by the caller (`now`).
* The `try { ... } catch { log }` wrappers of the two workflow helpers are
  modelled by a `dbOk` flag in the environment: when the flag is false the
  database calls inside the helper throw before the helper has mutated the
  expense, so the helper returns its argument unchanged.
* A route handler returning an HTTP error response is modelled by
  `Except.error` with an `ApiError` tag.
-/

namespace ExpenseMgmt

/-- A Mongo ObjectId reference to a user document. -/
abbrev UserId := Nat

/-- The `status` enum of the Expense schema
(`['pending', 'approved', 'rejected', 'partially_approved']`). -/
inductive Status where
  | pending
  | approved
  | rejected
  | partially_approved
deriving DecidableEq, Repr

/-- One entry of an approval rule's `approvers` array, keeping the fields the
route handlers read (`user`, `step`, `isRequired`).  The schema's unread
`canOverride` flag is omitted. -/
structure Approver where
  user : UserId
  step : Int
  isRequired : Bool
deriving DecidableEq, Repr

/-- The `approvalSettings` subdocument of an approval rule, keeping the fields
the route handlers read. -/
structure ApprovalSettings where
  percentageRequired : Option ℚ
  specificApproverCanApprove : Option UserId
deriving DecidableEq, Repr

/-- An ApprovalRule document.  The model file of this schema is not part of
the sources; the fields here are exactly those the route handlers read:
`company`, `isActive`, `conditions.amountThreshold` (flattened to
`amountThreshold`), `approvers`, `approvalType`, `approvalSettings` and
`priority`.  `approvalType` stays a `String` because the decision processor
switches on it with a default branch for unknown values. -/
structure ApprovalRule where
  company : Nat
  isActive : Bool
  amountThreshold : Option ℚ
  approvers : List Approver
  approvalType : String
  approvalSettings : ApprovalSettings
  priority : ℚ
deriving DecidableEq, Repr

/-- One entry of an expense's `approvalHistory` array. -/
structure HistoryEntry where
  approver : UserId
  action : String
  comment : String
  step : Nat
  timestamp : Nat
deriving DecidableEq, Repr

/-- An Expense document: the workflow-state fields of the Expense schema
together with the identity and monetary fields the engine reads. -/
structure Expense where
  employee : Nat
  company : Nat
  amountInCompanyCurrency : ℚ
  status : Status
  approvalHistory : List HistoryEntry
  currentApprover : Option UserId
  approvalStep : Nat
  totalApprovers : Nat
  approvedBy : List UserId
  rejectedBy : List UserId
  finalApprovalDate : Option Nat
  rejectionReason : Option String
deriving DecidableEq, Repr

/-- The manager reference read off an employee record by the default-workflow
branch: the code tests `employee.manager && employee.manager.isManagerApprover`
and then uses `employee.manager` as the single approver, so the reference
carries the approver flag and the id it denotes. -/
structure ManagerRef where
  id : UserId
  isManagerApprover : Bool
deriving DecidableEq, Repr

/-- The part of a User document read by the workflow helpers. -/
structure UserDoc where
  manager : Option ManagerRef
deriving DecidableEq, Repr

/-- The database environment a workflow evaluation runs against: the
ApprovalRule collection, the User collection, and a health flag.  When
`dbOk` is false the `await`ed lookups inside a workflow helper throw; the
helper's own `try/catch` then logs and returns with the expense untouched,
because every mutation in both helpers happens after the lookups. -/
structure Env where
  rules : List ApprovalRule
  users : UserId → Option UserDoc
  dbOk : Bool

/-- JS `x || d` for an optional numeric value: `undefined` and `0` are falsy. -/
def jsOrNum : Option ℚ → ℚ → ℚ
  | some v, d => if v = 0 then d else v
  | none, d => d

/-- JS `s || d` for an optional string value: `undefined` and `""` are falsy. -/
def jsOrStr : Option String → String → String
  | some s, d => if s = "" then d else s
  | none, d => d

/-- The filter of the `ApprovalRule.find` query shared by both workflow
helpers: same company, `isActive: true`, and `amountThreshold` either absent
or `≤ amountInCompanyCurrency`. -/
def ruleMatches (companyId : Nat) (amount : ℚ) (r : ApprovalRule) : Bool :=
  r.company == companyId && r.isActive &&
    (match r.amountThreshold with
     | some t => decide (t ≤ amount)
     | none => true)

/-- Sort key for `.sort({ priority: -1, 'conditions.amountThreshold': -1 })`:
lexicographic on priority then threshold, with an absent threshold ordered
below every numeric one (BSON orders null below numbers). -/
def ruleKey (r : ApprovalRule) : Lex (ℚ × WithBot ℚ) :=
  toLex (r.priority, match r.amountThreshold with
    | some t => (t : WithBot ℚ)
    | none => ⊥)

/-- Descending order on rules: `a` may come before `b`. -/
def ruleGE (a b : ApprovalRule) : Prop := ruleKey b ≤ ruleKey a

instance : DecidableRel ruleGE :=
  fun a b => inferInstanceAs (Decidable (ruleKey b ≤ ruleKey a))

instance : IsTotal ApprovalRule ruleGE :=
  ⟨fun a b => (le_total (ruleKey b) (ruleKey a)).imp id id⟩

instance : IsTrans ApprovalRule ruleGE :=
  ⟨fun _ _ _ hab hbc => le_trans hbc hab⟩

/-- The candidate list both helpers obtain from the database: matching rules
ordered by priority descending then threshold descending. -/
def resolveRules (rules : List ApprovalRule) (companyId : Nat) (amount : ℚ) :
    List ApprovalRule :=
  (rules.filter (ruleMatches companyId amount)).insertionSort ruleGE

/-- `rules[0]` of the query result, i.e. the rule a caller selects, or none. -/
def resolveRule (rules : List ApprovalRule) (companyId : Nat) (amount : ℚ) :
    Option ApprovalRule :=
  (resolveRules rules companyId amount).head?

/-- `rule.approvers.sort((a, b) => a.step - b.step)`: ascending stable sort
by step. -/
def sortApprovers (l : List Approver) : List Approver :=
  l.insertionSort (fun a b => a.step ≤ b.step)

/-- The default-workflow branch shared by both helpers when no rule matched:
look up the employee, and if `employee.manager && employee.manager.isManagerApprover`
produce the single required manager entry at step 1, else an empty list.
`none` models the `employee.manager` dereference throwing because the employee
record is missing. -/
def defaultApprovers (env : Env) (e : Expense) : Option (List Approver) :=
  match env.users e.employee with
  | none => none
  | some emp =>
    match emp.manager with
    | some m =>
      if m.isManagerApprover then some [{ user := m.id, step := 1, isRequired := true }]
      else some []
    | none => some []

/-- `requiredApprovers` as computed by `processApprovalWorkflow`:
`approvers.filter(approver => approver.isRequired)`. -/
def requiredOf (approvers : List Approver) : List Approver :=
  approvers.filter (·.isRequired)

/-- `approvedRequiredCount` as computed by `processApprovalWorkflow`: the
number of `approvedBy` entries that match some required approver. -/
def approvedRequiredCountOf (approvers : List Approver) (e : Expense) : Nat :=
  (e.approvedBy.filter (fun aid =>
    (requiredOf approvers).any (fun ap => ap.user == aid))).length

/-- `remainingApprovers` as computed by `processApprovalWorkflow`: approvers
in neither `approvedBy` nor `rejectedBy`. -/
def remainingOf (approvers : List Approver) (e : Expense) : List Approver :=
  approvers.filter (fun ap =>
    !(e.approvedBy.contains ap.user) && !(e.rejectedBy.contains ap.user))

/-- `(expense.approvedBy.length / expense.totalApprovers) * 100`. -/
def approvalPercentage (e : Expense) : ℚ :=
  ((e.approvedBy.length : ℚ) / (e.totalApprovers : ℚ)) * 100

/-- The terminal-approval mutation of `processApprovalWorkflow`:
`status = 'approved'`, `finalApprovalDate = now`, `currentApprover = null`. -/
def approveTerminal (e : Expense) (now : Nat) : Expense :=
  { e with status := .approved, finalApprovalDate := some now, currentApprover := none }

/-- The exhaustion-rejection mutation of `processApprovalWorkflow`:
`status = 'rejected'`, `rejectionReason = 'Insufficient approvals'`,
`finalApprovalDate = now`, `currentApprover = null`. -/
def rejectInsufficient (e : Expense) (now : Nat) : Expense :=
  { e with status := .rejected, rejectionReason := some "Insufficient approvals",
           finalApprovalDate := some now, currentApprover := none }

/-- The `switch (approvalType)` block of `processApprovalWorkflow`.  It yields
the (possibly mutated) expense together with the `isApproved` flag.  Only the
`sequential` arm mutates the expense (incrementing `approvalStep` and moving
`currentApprover` to `approvers[approvalStep - 1]`); every other arm just
computes the flag.  `settings` is `rules[0]?.approvalSettings`; `requiredLen`
and `approvedRequiredCount` are the counts computed right before the switch. -/
def approvalSwitch (settings : Option ApprovalSettings) (approvers : List Approver)
    (approvalType : String) (requiredLen approvedRequiredCount : Nat)
    (e : Expense) : Expense × Bool :=
  match approvalType with
  | "sequential" =>
    if h : e.approvalStep < approvers.length then
      ({ e with approvalStep := e.approvalStep + 1,
                currentApprover := some (approvers.get ⟨e.approvalStep, h⟩).user }, false)
    else
      (e, true)
  | "parallel" => (e, decide (requiredLen ≤ approvedRequiredCount))
  | "percentage" =>
    (e, decide (jsOrNum (settings.bind (·.percentageRequired)) 100 ≤ approvalPercentage e))
  | "specific_approver" =>
    (e, match settings.bind (·.specificApproverCanApprove) with
        | some s => e.approvedBy.contains s
        | none => false)
  | "hybrid" =>
    (e, decide (jsOrNum (settings.bind (·.percentageRequired)) 60 ≤ approvalPercentage e) ||
        (match settings.bind (·.specificApproverCanApprove) with
         | some s => e.approvedBy.contains s
         | none => false))
  | _ => (e, decide (requiredLen ≤ approvedRequiredCount))

/-- The tail of `processApprovalWorkflow` after the switch: terminal approval
when `isApproved`; the sequential continue branch; otherwise advance to the
first approver in neither `approvedBy` nor `rejectedBy`, and on exhaustion
resolve by final percentage — but only for the `percentage` and `hybrid`
types; every other type falls off the `if` and the expense is left as is. -/
def resolveOutcome (settings : Option ApprovalSettings) (approvers : List Approver)
    (approvalType : String) (now : Nat) (sw : Expense × Bool) : Expense :=
  let e1 := sw.1
  if sw.2 then
    approveTerminal e1 now
  else if approvalType = "sequential" ∧ e1.approvalStep ≤ approvers.length then
    e1
  else
    match remainingOf approvers e1 with
    | ap :: _ => { e1 with currentApprover := some ap.user }
    | [] =>
      if approvalType = "percentage" ∨ approvalType = "hybrid" then
        if jsOrNum (settings.bind (·.percentageRequired)) 100 ≤ approvalPercentage e1 then
          approveTerminal e1 now
        else
          rejectInsufficient e1 now
      else
        e1

/-- The body of `processApprovalWorkflow` once the approver list and approval
type are resolved.  `rules` is the sorted query result, whose head supplies
`approvalSettings`. -/
def processDecision (rules : List ApprovalRule) (approvers : List Approver)
    (approvalType : String) (e : Expense) (now : Nat) : Expense :=
  let settings := rules.head?.map (·.approvalSettings)
  resolveOutcome settings approvers approvalType now
    (approvalSwitch settings approvers approvalType
      (requiredOf approvers).length (approvedRequiredCountOf approvers e) e)

/-- Helper `processApprovalWorkflow(expense)` of the approvals router.  A
throwing lookup (`dbOk = false`, or a missing employee record in the default
branch) is caught by the helper's `catch`, which only logs: the expense is
returned untouched because no mutation precedes the lookups. -/
def processApprovalWorkflow (env : Env) (e : Expense) (now : Nat) : Expense :=
  if env.dbOk then
    match resolveRules env.rules e.company e.amountInCompanyCurrency with
    | rule :: rest =>
      processDecision (rule :: rest) (sortApprovers rule.approvers) rule.approvalType e now
    | [] =>
      match defaultApprovers env e with
      | none => e
      | some approvers => processDecision [] approvers "sequential" e now
  else
    e

/-- Error responses of the modelled route handlers. -/
inductive ApiError where
  | forbidden
  | notCurrentApprover
  | notPending
  | serverError
deriving DecidableEq, Repr

/-- Handler `PUT /api/approvals/:id` (decision processing), given the expense
the id resolved to.  Note the order of the guards: the handler dereferences
`expense.currentApprover.toString()` before checking the status, so a null
`currentApprover` throws and the catch-all returns the generic 500 error. -/
def approvalsPut (env : Env) (e : Expense) (actor : UserId) (action : String)
    (comment : Option String) (now : Nat) : Except ApiError Expense :=
  match e.currentApprover with
  | none => .error .serverError
  | some cur =>
    if cur ≠ actor then
      .error .notCurrentApprover
    else if e.status ≠ .pending then
      .error .notPending
    else
      let e1 := { e with approvalHistory := e.approvalHistory ++
        [({ approver := actor, action := action, comment := jsOrStr comment "",
            step := e.approvalStep, timestamp := now } : HistoryEntry)] }
      if action = "approved" then
        let e2 := { e1 with approvedBy := e1.approvedBy ++ [actor] }
        .ok (processApprovalWorkflow env e2 now)
      else
        .ok { e1 with rejectedBy := e1.rejectedBy ++ [actor],
                      status := .rejected,
                      rejectionReason := some (jsOrStr comment "No reason provided"),
                      finalApprovalDate := some now }

/-- Handler `PUT /api/approvals/:id/override`, given the expense the id
resolved to.  Only the admin-role check guards it; the expense's status is
never examined. -/
def overridePut (e : Expense) (actorId : UserId) (actorRole : String)
    (action : String) (comment : Option String) (now : Nat) : Except ApiError Expense :=
  if actorRole ≠ "admin" then
    .error .forbidden
  else
    let e1 := { e with
      approvalHistory := e.approvalHistory ++
        [({ approver := actorId,
            action := if action = "approved" then "approved" else "rejected",
            comment := "[ADMIN OVERRIDE] " ++ jsOrStr comment "No reason provided",
            step := e.approvalStep + 1,
            timestamp := now } : HistoryEntry)],
      status := if action = "approved" then Status.approved else Status.rejected,
      finalApprovalDate := some now,
      currentApprover := none }
    if action = "rejected" then
      .ok { e1 with rejectionReason := some (jsOrStr comment "Rejected by admin override") }
    else
      .ok e1

/-- The reset-and-assign tail of `determineApprovalWorkflow`, given the
resolved approver list. -/
def initFrom (e : Expense) (approvers : List Approver) (now : Nat) : Expense :=
  let e1 := { e with totalApprovers := approvers.length, approvalStep := 0,
                     approvedBy := [], rejectedBy := [], approvalHistory := [] }
  match approvers with
  | ap :: _ => { e1 with currentApprover := some ap.user, approvalStep := 1 }
  | [] => { e1 with status := .approved, finalApprovalDate := some now }

/-- Helper `determineApprovalWorkflow(expense)` of the expenses router.  Note
that the auto-approve branch does not clear `currentApprover`. -/
def determineApprovalWorkflow (env : Env) (e : Expense) (now : Nat) : Expense :=
  if env.dbOk then
    match resolveRules env.rules e.company e.amountInCompanyCurrency with
    | rule :: _ => initFrom e (sortApprovers rule.approvers) now
    | [] =>
      match defaultApprovers env e with
      | none => e
      | some approvers => initFrom e approvers now
  else
    e

/-- A freshly created Expense document with the schema defaults, before
`determineApprovalWorkflow` runs. -/
def newExpense (employee company : Nat) (amountInCompanyCurrency : ℚ) : Expense :=
  { employee := employee, company := company,
    amountInCompanyCurrency := amountInCompanyCurrency,
    status := .pending, approvalHistory := [], currentApprover := none,
    approvalStep := 0, totalApprovers := 0, approvedBy := [], rejectedBy := [],
    finalApprovalDate := none, rejectionReason := none }

/-- Handler `POST /api/expenses`: create the document, then run
`determineApprovalWorkflow`. -/
def expensesPost (env : Env) (employee company : Nat) (amount : ℚ) (now : Nat) :
    Expense :=
  determineApprovalWorkflow env (newExpense employee company amount) now

/-- Handler `PUT /api/expenses/:id`: permitted only while pending; updates the
monetary fields and re-runs `determineApprovalWorkflow`.  Only
`amountInCompanyCurrency` feeds the engine, so the other edited fields are
not carried. -/
def expensesPut (env : Env) (e : Expense) (amount : ℚ) (now : Nat) :
    Except ApiError Expense :=
  if e.status ≠ .pending then
    .error .notPending
  else
    .ok (determineApprovalWorkflow env { e with amountInCompanyCurrency := amount } now)

/-- Expense states reachable through the engine's operations: creation, edit
while pending, a decision from the current approver (whose action the
`validateApproval` middleware restricts to `approved`/`rejected`), and admin
override.  The environment is quantified per step, mirroring rule
re-resolution against a live store. -/
inductive Reachable : Expense → Prop where
  | create (env : Env) (employee company : Nat) (amount : ℚ) (now : Nat) :
      Reachable (expensesPost env employee company amount now)
  | edit (env : Env) (e : Expense) (amount : ℚ) (now : Nat) (e2 : Expense) :
      Reachable e → expensesPut env e amount now = .ok e2 → Reachable e2
  | decision (env : Env) (e : Expense) (actor : UserId) (action : String)
      (comment : Option String) (now : Nat) (e2 : Expense) :
      Reachable e → (action = "approved" ∨ action = "rejected") →
      approvalsPut env e actor action comment now = .ok e2 → Reachable e2
  | override (e : Expense) (actorId : UserId) (actorRole action : String)
      (comment : Option String) (now : Nat) (e2 : Expense) :
      Reachable e → overridePut e actorId actorRole action comment now = .ok e2 →
      Reachable e2

/-- Reachability restricted to decisions whose actor has not already decided
the expense: the spec's "normal flow never re-offers a decided approver". -/
inductive ReachableFresh : Expense → Prop where
  | create (env : Env) (employee company : Nat) (amount : ℚ) (now : Nat) :
      ReachableFresh (expensesPost env employee company amount now)
  | edit (env : Env) (e : Expense) (amount : ℚ) (now : Nat) (e2 : Expense) :
      ReachableFresh e → expensesPut env e amount now = .ok e2 → ReachableFresh e2
  | decision (env : Env) (e : Expense) (actor : UserId) (action : String)
      (comment : Option String) (now : Nat) (e2 : Expense) :
      ReachableFresh e → (action = "approved" ∨ action = "rejected") →
      actor ∉ e.approvedBy → actor ∉ e.rejectedBy →
      approvalsPut env e actor action comment now = .ok e2 → ReachableFresh e2
  | override (e : Expense) (actorId : UserId) (actorRole action : String)
      (comment : Option String) (now : Nat) (e2 : Expense) :
      ReachableFresh e → overridePut e actorId actorRole action comment now = .ok e2 →
      ReachableFresh e2

/-! ## Concrete instances used by witnesses and counterexamples -/

/-- A parallel rule listing the same required user at two steps. -/
def parDupRule : ApprovalRule :=
  { company := 2, isActive := true, amountThreshold := none,
    approvers := [{ user := 5, step := 1, isRequired := true },
                  { user := 5, step := 2, isRequired := true }],
    approvalType := "parallel", approvalSettings := ⟨none, none⟩, priority := 1 }

def parDupEnv : Env := { rules := [parDupRule], users := fun _ => none, dbOk := true }

/-- The parallel-dup expense right after its single approver approved: one
entry in `approvedBy`, required count still unmet, no undecided approver. -/
def parDupExp : Expense :=
  { employee := 1, company := 2, amountInCompanyCurrency := 50, status := .pending,
    approvalHistory := [{ approver := 5, action := "approved", comment := "",
                          step := 1, timestamp := 1 }],
    currentApprover := some 5, approvalStep := 1, totalApprovers := 2,
    approvedBy := [5], rejectedBy := [], finalApprovalDate := none,
    rejectionReason := none }

def c2Env : Env :=
  { rules := [], users := fun _ => some ⟨some ⟨9, true⟩⟩, dbOk := true }

/-- An environment whose database lookups throw during workflow evaluation. -/
def c3Env : Env := { rules := [], users := fun _ => none, dbOk := false }

def c3Exp : Expense :=
  { employee := 1, company := 2, amountInCompanyCurrency := 50, status := .pending,
    approvalHistory := [], currentApprover := some 5, approvalStep := 1,
    totalApprovers := 1, approvedBy := [], rejectedBy := [],
    finalApprovalDate := none, rejectionReason := none }

def c4Env : Env := { rules := [], users := fun _ => none, dbOk := true }

def c4Exp : Expense :=
  { employee := 1, company := 2, amountInCompanyCurrency := 50, status := .pending,
    approvalHistory := [], currentApprover := some 5, approvalStep := 1,
    totalApprovers := 1, approvedBy := [], rejectedBy := [],
    finalApprovalDate := none, rejectionReason := none }

/-- A percentage rule whose `percentageRequired` is explicitly 0. -/
def pctZeroRule : ApprovalRule :=
  { company := 2, isActive := true, amountThreshold := none,
    approvers := [{ user := 5, step := 1, isRequired := true },
                  { user := 6, step := 2, isRequired := true }],
    approvalType := "percentage", approvalSettings := ⟨some 0, none⟩, priority := 1 }

def pctZeroEnv : Env := { rules := [pctZeroRule], users := fun _ => none, dbOk := true }

/-- A percentage rule requiring 50%. -/
def pctHalfRule : ApprovalRule :=
  { company := 2, isActive := true, amountThreshold := none,
    approvers := [{ user := 5, step := 1, isRequired := true },
                  { user := 6, step := 2, isRequired := true }],
    approvalType := "percentage", approvalSettings := ⟨some 50, none⟩, priority := 1 }

def pctHalfEnv : Env := { rules := [pctHalfRule], users := fun _ => none, dbOk := true }

/-- The percentage expense right after user 5 approved (50% of 2). -/
def pctExp : Expense :=
  { employee := 1, company := 2, amountInCompanyCurrency := 50, status := .pending,
    approvalHistory := [{ approver := 5, action := "approved", comment := "",
                          step := 1, timestamp := 1 }],
    currentApprover := some 5, approvalStep := 1, totalApprovers := 2,
    approvedBy := [5], rejectedBy := [], finalApprovalDate := none,
    rejectionReason := none }

/-- The percentage expense as freshly created: user 5 is current approver. -/
def pctC0 : Expense :=
  { employee := 1, company := 2, amountInCompanyCurrency := 50, status := .pending,
    approvalHistory := [], currentApprover := some 5, approvalStep := 1,
    totalApprovers := 2, approvedBy := [], rejectedBy := [],
    finalApprovalDate := none, rejectionReason := none }

def c6RuleA : ApprovalRule :=
  { company := 2, isActive := true, amountThreshold := some 10,
    approvers := [], approvalType := "sequential",
    approvalSettings := ⟨none, none⟩, priority := 1 }

def c6RuleB : ApprovalRule :=
  { company := 2, isActive := true, amountThreshold := some 40,
    approvers := [], approvalType := "parallel",
    approvalSettings := ⟨none, none⟩, priority := 1 }

def c6RuleInactive : ApprovalRule :=
  { company := 2, isActive := false, amountThreshold := some 40,
    approvers := [], approvalType := "hybrid",
    approvalSettings := ⟨none, none⟩, priority := 9 }

def c7Env : Env :=
  { rules := [], users := fun _ => some ⟨some ⟨9, true⟩⟩, dbOk := true }

/-- A sequential rule listing the same user at two steps: the advancement
re-offers a decided approver. -/
def seqDupRule : ApprovalRule :=
  { company := 2, isActive := true, amountThreshold := none,
    approvers := [{ user := 7, step := 1, isRequired := true },
                  { user := 7, step := 2, isRequired := true }],
    approvalType := "sequential", approvalSettings := ⟨none, none⟩, priority := 1 }

def c8Env : Env := { rules := [seqDupRule], users := fun _ => none, dbOk := true }

/-- The sequential-dup expense after user 7's first approval: approved once,
and re-offered as current approver. -/
def c8Mid : Expense :=
  { employee := 1, company := 2, amountInCompanyCurrency := 50, status := .pending,
    approvalHistory := [{ approver := 7, action := "approved", comment := "",
                          step := 1, timestamp := 1 }],
    currentApprover := some 7, approvalStep := 2, totalApprovers := 2,
    approvedBy := [7], rejectedBy := [], finalApprovalDate := none,
    rejectionReason := none }

/-- The sequential-dup expense after user 7, re-offered, then rejected: user 7
now sits in both `approvedBy` and `rejectedBy`. -/
def c8Bad : Expense :=
  { employee := 1, company := 2, amountInCompanyCurrency := 50, status := .rejected,
    approvalHistory := [{ approver := 7, action := "approved", comment := "",
                          step := 1, timestamp := 1 },
                        { approver := 7, action := "rejected", comment := "",
                          step := 2, timestamp := 2 }],
    currentApprover := some 7, approvalStep := 2, totalApprovers := 2,
    approvedBy := [7], rejectedBy := [7], finalApprovalDate := some 2,
    rejectionReason := some "No reason provided" }

def c8FreshEnv : Env :=
  { rules := [], users := fun _ => some ⟨some ⟨9, true⟩⟩, dbOk := true }

def c9Exp : Expense :=
  { employee := 1, company := 2, amountInCompanyCurrency := 50, status := .approved,
    approvalHistory := [], currentApprover := none, approvalStep := 0,
    totalApprovers := 0, approvedBy := [3], rejectedBy := [],
    finalApprovalDate := some 1, rejectionReason := none }

/-- An environment with no rules and a non-approving manager: creation
auto-approves and leaves `currentApprover` null. -/
def c10Env : Env :=
  { rules := [], users := fun _ => some ⟨some ⟨9, false⟩⟩, dbOk := true }

/-! ## Helper lemmas -/

/-- The `finalApprovalDate` / terminal-status invariant (spec §8). -/
def DateInv (e : Expense) : Prop :=
  e.finalApprovalDate.isSome = true ↔ (e.status = .approved ∨ e.status = .rejected)

theorem approvalSwitch_cases (settings : Option ApprovalSettings)
    (approvers : List Approver) (approvalType : String)
    (requiredLen approvedRequiredCount : Nat) (e : Expense) :
    (approvalSwitch settings approvers approvalType
        requiredLen approvedRequiredCount e).1 = e ∨
      ∃ u, (approvalSwitch settings approvers approvalType
        requiredLen approvedRequiredCount e).1 =
          { e with approvalStep := e.approvalStep + 1, currentApprover := some u } := by
  unfold approvalSwitch
  split
  · split
    · exact Or.inr ⟨_, rfl⟩
    · exact Or.inl rfl
  all_goals exact Or.inl rfl

theorem resolveOutcome_cases (settings : Option ApprovalSettings)
    (approvers : List Approver) (approvalType : String) (now : Nat)
    (sw : Expense × Bool) :
    resolveOutcome settings approvers approvalType now sw = approveTerminal sw.1 now ∨
      resolveOutcome settings approvers approvalType now sw = sw.1 ∨
      (∃ u, resolveOutcome settings approvers approvalType now sw =
        { sw.1 with currentApprover := some u }) ∨
      resolveOutcome settings approvers approvalType now sw = rejectInsufficient sw.1 now := by
  unfold resolveOutcome
  dsimp only
  split
  · exact Or.inl rfl
  · split
    · exact Or.inr (Or.inl rfl)
    · split
      · exact Or.inr (Or.inr (Or.inl ⟨_, rfl⟩))
      · split
        · split
          · exact Or.inl rfl
          · exact Or.inr (Or.inr (Or.inr rfl))
        · exact Or.inr (Or.inl rfl)

theorem processDecision_eq (rules : List ApprovalRule) (approvers : List Approver)
    (approvalType : String) (e : Expense) (now : Nat) :
    processDecision rules approvers approvalType e now =
      resolveOutcome (rules.head?.map (·.approvalSettings)) approvers approvalType now
        (approvalSwitch (rules.head?.map (·.approvalSettings)) approvers approvalType
          (requiredOf approvers).length (approvedRequiredCountOf approvers e) e) :=
  rfl

/-- Every run of the resolved decision body ends in one of four shapes: a
terminal approval, the untouched intermediate state, an approver advance, or
the insufficient-approvals rejection — each over an intermediate state that is
either the input or the input after a sequential step increment. -/
theorem processDecision_cases (rules : List ApprovalRule) (approvers : List Approver)
    (approvalType : String) (e : Expense) (now : Nat) :
    ∃ e1 : Expense,
      (e1 = e ∨ ∃ u, e1 = { e with approvalStep := e.approvalStep + 1,
                                   currentApprover := some u }) ∧
      (processDecision rules approvers approvalType e now = approveTerminal e1 now ∨
       processDecision rules approvers approvalType e now = e1 ∨
       (∃ u, processDecision rules approvers approvalType e now =
          { e1 with currentApprover := some u }) ∨
       processDecision rules approvers approvalType e now = rejectInsufficient e1 now) := by
  rw [processDecision_eq]
  exact ⟨_, approvalSwitch_cases _ _ _ _ _ _, resolveOutcome_cases _ _ _ _ _⟩

theorem processDecision_arrays (rules : List ApprovalRule) (approvers : List Approver)
    (approvalType : String) (e : Expense) (now : Nat) :
    (processDecision rules approvers approvalType e now).approvedBy = e.approvedBy ∧
      (processDecision rules approvers approvalType e now).rejectedBy = e.rejectedBy ∧
      (processDecision rules approvers approvalType e now).approvalHistory =
        e.approvalHistory := by
  obtain ⟨e1, h1, h2⟩ := processDecision_cases rules approvers approvalType e now
  have harr : e1.approvedBy = e.approvedBy ∧ e1.rejectedBy = e.rejectedBy ∧
      e1.approvalHistory = e.approvalHistory := by
    rcases h1 with rfl | ⟨u, rfl⟩ <;> exact ⟨rfl, rfl, rfl⟩
  rcases h2 with h | h | ⟨u, h⟩ | h <;> rw [h] <;>
    simp [approveTerminal, rejectInsufficient, harr.1, harr.2.1, harr.2.2]

theorem processApprovalWorkflow_arrays (env : Env) (e : Expense) (now : Nat) :
    (processApprovalWorkflow env e now).approvedBy = e.approvedBy ∧
      (processApprovalWorkflow env e now).rejectedBy = e.rejectedBy ∧
      (processApprovalWorkflow env e now).approvalHistory = e.approvalHistory := by
  unfold processApprovalWorkflow
  split
  · split
    · exact processDecision_arrays _ _ _ _ _
    · split
      · exact ⟨rfl, rfl, rfl⟩
      · exact processDecision_arrays _ _ _ _ _
  · exact ⟨rfl, rfl, rfl⟩

theorem processDecision_dateInv (rules : List ApprovalRule) (approvers : List Approver)
    (approvalType : String) (e : Expense) (now : Nat)
    (hst : e.status = .pending) (hd : e.finalApprovalDate = none) :
    DateInv (processDecision rules approvers approvalType e now) := by
  obtain ⟨e1, h1, h2⟩ := processDecision_cases rules approvers approvalType e now
  have h1' : e1.status = Status.pending ∧ e1.finalApprovalDate = none := by
    rcases h1 with rfl | ⟨u, rfl⟩ <;> exact ⟨hst, hd⟩
  rcases h2 with h | h | ⟨u, h⟩ | h <;>
    simp [DateInv, h, approveTerminal, rejectInsufficient, h1'.1, h1'.2]

theorem processApprovalWorkflow_dateInv (env : Env) (e : Expense) (now : Nat)
    (hst : e.status = .pending) (hd : e.finalApprovalDate = none) :
    DateInv (processApprovalWorkflow env e now) := by
  unfold processApprovalWorkflow
  split
  · split
    · exact processDecision_dateInv _ _ _ _ _ hst hd
    · split
      · simp [DateInv, hst, hd]
      · exact processDecision_dateInv _ _ _ _ _ hst hd
  · simp [DateInv, hst, hd]

theorem initFrom_dateInv (e : Expense) (approvers : List Approver) (now : Nat)
    (hst : e.status = .pending) (hd : e.finalApprovalDate = none) :
    DateInv (initFrom e approvers now) := by
  unfold initFrom
  split <;> simp [DateInv, hst, hd]

theorem determineApprovalWorkflow_dateInv (env : Env) (e : Expense) (now : Nat)
    (hst : e.status = .pending) (hd : e.finalApprovalDate = none) :
    DateInv (determineApprovalWorkflow env e now) := by
  unfold determineApprovalWorkflow
  split
  · split
    · exact initFrom_dateInv _ _ _ hst hd
    · split
      · simp [DateInv, hst, hd]
      · exact initFrom_dateInv _ _ _ hst hd
  · simp [DateInv, hst, hd]

theorem initFrom_arrays (e : Expense) (approvers : List Approver) (now : Nat) :
    (initFrom e approvers now).approvedBy = [] ∧
      (initFrom e approvers now).rejectedBy = [] := by
  unfold initFrom
  split <;> exact ⟨rfl, rfl⟩

theorem determineApprovalWorkflow_arrays (env : Env) (e : Expense) (now : Nat) :
    ((determineApprovalWorkflow env e now).approvedBy = e.approvedBy ∧
      (determineApprovalWorkflow env e now).rejectedBy = e.rejectedBy) ∨
    ((determineApprovalWorkflow env e now).approvedBy = [] ∧
      (determineApprovalWorkflow env e now).rejectedBy = []) := by
  unfold determineApprovalWorkflow
  split
  · split
    · exact Or.inr (initFrom_arrays _ _ _)
    · split
      · exact Or.inl ⟨rfl, rfl⟩
      · exact Or.inr (initFrom_arrays _ _ _)
  · exact Or.inl ⟨rfl, rfl⟩

/-- The pending status is not terminal, so `DateInv` forces a missing date. -/
theorem dateInv_pending {e : Expense} (h : DateInv e) (hst : e.status = .pending) :
    e.finalApprovalDate = none := by
  rcases hfd : e.finalApprovalDate with _ | d
  · rfl
  · exfalso
    have := h.mp (by rw [hfd]; rfl)
    rw [hst] at this
    rcases this with h1 | h1 <;> exact Status.noConfusion h1

theorem approvalSwitch_parallel (settings : Option ApprovalSettings)
    (approvers : List Approver) (requiredLen cnt : Nat) (e : Expense) :
    approvalSwitch settings approvers "parallel" requiredLen cnt e =
      (e, decide (requiredLen ≤ cnt)) := rfl

theorem approvalSwitch_percentage (settings : Option ApprovalSettings)
    (approvers : List Approver) (requiredLen cnt : Nat) (e : Expense) :
    approvalSwitch settings approvers "percentage" requiredLen cnt e =
      (e, decide (jsOrNum (settings.bind (·.percentageRequired)) 100 ≤
        approvalPercentage e)) := rfl

theorem resolveOutcome_parallel (settings : Option ApprovalSettings)
    (approvers : List Approver) (now : Nat) (e : Expense) (b : Bool) :
    resolveOutcome settings approvers "parallel" now (e, b) =
      if b then approveTerminal e now
      else
        match remainingOf approvers e with
        | ap :: _ => { e with currentApprover := some ap.user }
        | [] => e := by
  unfold resolveOutcome
  cases b with
  | true => simp
  | false =>
    simp only [Bool.false_eq_true, if_false]
    rw [if_neg (fun h => absurd h.1 (by decide))]
    cases hrem : remainingOf approvers e with
    | nil => rw [if_neg (by decide)]
    | cons ap tl => rfl

theorem resolveOutcome_percentage (settings : Option ApprovalSettings)
    (approvers : List Approver) (now : Nat) (e : Expense) (b : Bool) :
    resolveOutcome settings approvers "percentage" now (e, b) =
      if b then approveTerminal e now
      else
        match remainingOf approvers e with
        | ap :: _ => { e with currentApprover := some ap.user }
        | [] =>
          if jsOrNum (settings.bind (·.percentageRequired)) 100 ≤ approvalPercentage e then
            approveTerminal e now
          else rejectInsufficient e now := by
  unfold resolveOutcome
  cases b with
  | true => simp
  | false =>
    simp only [Bool.false_eq_true, if_false]
    rw [if_neg (fun h => absurd h.1 (by decide))]
    cases hrem : remainingOf approvers e with
    | nil => rw [if_pos (by decide)]
    | cons ap tl => rfl

theorem processDecision_parallel (rules : List ApprovalRule) (approvers : List Approver)
    (e : Expense) (now : Nat) :
    processDecision rules approvers "parallel" e now =
      if (requiredOf approvers).length ≤ approvedRequiredCountOf approvers e then
        approveTerminal e now
      else
        match remainingOf approvers e with
        | ap :: _ => { e with currentApprover := some ap.user }
        | [] => e := by
  rw [processDecision_eq, approvalSwitch_parallel, resolveOutcome_parallel]
  by_cases h : (requiredOf approvers).length ≤ approvedRequiredCountOf approvers e <;>
    simp [h]

theorem processDecision_percentage (rules : List ApprovalRule) (approvers : List Approver)
    (e : Expense) (now : Nat) :
    processDecision rules approvers "percentage" e now =
      if jsOrNum ((rules.head?.map (·.approvalSettings)).bind (·.percentageRequired)) 100 ≤
          approvalPercentage e then
        approveTerminal e now
      else
        match remainingOf approvers e with
        | ap :: _ => { e with currentApprover := some ap.user }
        | [] => rejectInsufficient e now := by
  rw [processDecision_eq, approvalSwitch_percentage, resolveOutcome_percentage]
  by_cases h : jsOrNum ((rules.head?.map (·.approvalSettings)).bind (·.percentageRequired)) 100 ≤
      approvalPercentage e
  · simp [h]
  · simp [h]

/-- With a matching rule and a healthy database, decision processing reduces
to the resolved rule's decision body. -/
theorem processApprovalWorkflow_ruleCase (env : Env) (e : Expense) (now : Nat)
    (rule : ApprovalRule) (rest : List ApprovalRule) (hdb : env.dbOk = true)
    (hres : resolveRules env.rules e.company e.amountInCompanyCurrency = rule :: rest) :
    processApprovalWorkflow env e now =
      processDecision (rule :: rest) (sortApprovers rule.approvers) rule.approvalType e now := by
  unfold processApprovalWorkflow
  rw [hres]
  simp [hdb]

/-- Inversion for a successful decision request: the expense was pending and
the result is either the approval path (workflow re-evaluation over the state
with the history entry and `approvedBy` appended) or the immediate rejection
record. -/
theorem approvalsPut_ok (env : Env) (e : Expense) (actor : UserId) (action : String)
    (comment : Option String) (now : Nat) (e2 : Expense)
    (hok : approvalsPut env e actor action comment now = .ok e2) :
    e.status = .pending ∧
      (e2 = processApprovalWorkflow env
          { e with
            approvalHistory := e.approvalHistory ++
              [⟨actor, action, jsOrStr comment "", e.approvalStep, now⟩]
            approvedBy := e.approvedBy ++ [actor] } now ∨
       e2 = { e with
              approvalHistory := e.approvalHistory ++
                [⟨actor, action, jsOrStr comment "", e.approvalStep, now⟩]
              rejectedBy := e.rejectedBy ++ [actor]
              status := .rejected
              rejectionReason := some (jsOrStr comment "No reason provided")
              finalApprovalDate := some now }) := by
  unfold approvalsPut at hok
  cases hc : e.currentApprover with
  | none =>
    rw [hc] at hok
    exact absurd hok (by simp)
  | some cur =>
    rw [hc] at hok
    dsimp only at hok
    split at hok
    · exact absurd hok (by simp)
    · split at hok
      · exact absurd hok (by simp)
      · next hpend =>
        refine ⟨not_not.mp hpend, ?_⟩
        split at hok
        · cases hok
          exact Or.inl rfl
        · cases hok
          exact Or.inr rfl

/-- Inversion for a successful edit request: the expense was pending and the
result is re-initialization over the updated amount. -/
theorem expensesPut_ok (env : Env) (e : Expense) (amount : ℚ) (now : Nat)
    (e2 : Expense) (hok : expensesPut env e amount now = .ok e2) :
    e.status = .pending ∧
      e2 = determineApprovalWorkflow env
        { e with amountInCompanyCurrency := amount } now := by
  unfold expensesPut at hok
  split at hok
  · exact absurd hok (by simp)
  · next h =>
    cases hok
    exact ⟨not_not.mp h, rfl⟩

/-- Inversion for a successful override request: the result carries the
forced terminal status, a set date, and untouched decision lists. -/
theorem overridePut_ok (e : Expense) (actorId : UserId) (actorRole action : String)
    (comment : Option String) (now : Nat) (e2 : Expense)
    (hok : overridePut e actorId actorRole action comment now = .ok e2) :
    e2.status = (if action = "approved" then Status.approved else Status.rejected) ∧
      e2.finalApprovalDate = some now ∧ e2.approvedBy = e.approvedBy ∧
      e2.rejectedBy = e.rejectedBy := by
  unfold overridePut at hok
  split at hok
  · exact absurd hok (by simp)
  · by_cases hact : action = "rejected"
    · rw [if_pos hact] at hok
      cases hok
      exact ⟨rfl, rfl, rfl, rfl⟩
    · rw [if_neg hact] at hok
      cases hok
      exact ⟨rfl, rfl, rfl, rfl⟩

theorem nodup_append_insert_left {α : Type} {a : α} {xs ys : List α}
    (h : (xs ++ ys).Nodup) (hx : a ∉ xs) (hy : a ∉ ys) :
    ((xs ++ [a]) ++ ys).Nodup := by
  have hperm : List.Perm ((xs ++ [a]) ++ ys) (a :: (xs ++ ys)) :=
    (List.perm_append_singleton a xs).append_right ys
  exact hperm.nodup_iff.mpr (List.nodup_cons.mpr ⟨by simp [hx, hy], h⟩)

theorem nodup_append_insert_right {α : Type} {a : α} {xs ys : List α}
    (h : (xs ++ ys).Nodup) (hx : a ∉ xs) (hy : a ∉ ys) :
    (xs ++ (ys ++ [a])).Nodup := by
  rw [← List.append_assoc]
  exact (List.perm_append_singleton a (xs ++ ys)).nodup_iff.mpr
    (List.nodup_cons.mpr ⟨by simp [hx, hy], h⟩)

theorem approvalPercentage_pctExp : approvalPercentage pctExp = 50 := by
  norm_num [approvalPercentage, pctExp]

theorem pctZero_route :
    approvalsPut pctZeroEnv pctC0 5 "approved" none 1 =
      .ok (processApprovalWorkflow pctZeroEnv pctExp 1) := rfl

theorem pctZero_eval :
    processApprovalWorkflow pctZeroEnv pctExp 1 =
      { pctExp with currentApprover := some 6 } := by
  rw [processApprovalWorkflow_ruleCase pctZeroEnv pctExp 1 pctZeroRule [] rfl (by decide),
    show pctZeroRule.approvalType = "percentage" from rfl, processDecision_percentage]
  rw [if_neg (by rw [approvalPercentage_pctExp]; norm_num [pctZeroRule, jsOrNum])]
  rw [show remainingOf (sortApprovers pctZeroRule.approvers) pctExp =
    [{ user := 6, step := 2, isRequired := true }] from by decide]

/-! ## Claims -/

/-- C2: when no approval rule matches at initialization, an employee whose
manager is flagged as approver yields the single-entry workflow
(`totalApprovers = 1`, `currentApprover` = the manager, `approvalStep = 1`),
while no manager or a non-approving manager yields immediate auto-approval
(`status = approved`, `totalApprovers = 0`). -/
theorem c2_default_init (env : Env) (e : Expense) (now : Nat) (u : UserDoc)
    (hdb : env.dbOk = true)
    (hres : resolveRules env.rules e.company e.amountInCompanyCurrency = [])
    (hu : env.users e.employee = some u) :
    (∀ m : ManagerRef, u.manager = some m → m.isManagerApprover = true →
      determineApprovalWorkflow env e now =
        { e with
          totalApprovers := 1
          approvalStep := 1
          currentApprover := some m.id
          approvedBy := []
          rejectedBy := []
          approvalHistory := [] }) ∧
    (∀ m : ManagerRef, u.manager = some m → m.isManagerApprover = false →
      determineApprovalWorkflow env e now =
        { e with
          totalApprovers := 0
          approvalStep := 0
          approvedBy := []
          rejectedBy := []
          approvalHistory := []
          status := .approved
          finalApprovalDate := some now }) ∧
    (u.manager = none →
      determineApprovalWorkflow env e now =
        { e with
          totalApprovers := 0
          approvalStep := 0
          approvedBy := []
          rejectedBy := []
          approvalHistory := []
          status := .approved
          finalApprovalDate := some now }) := by
  refine ⟨?_, ?_, ?_⟩
  · intro m hm hflag
    simp [determineApprovalWorkflow, hdb, hres, defaultApprovers, hu, hm, hflag,
      initFrom, sortApprovers]
  · intro m hm hflag
    simp [determineApprovalWorkflow, hdb, hres, defaultApprovers, hu, hm, hflag, initFrom]
  · intro hm
    simp [determineApprovalWorkflow, hdb, hres, defaultApprovers, hu, hm, initFrom]

theorem c2_witness :
    determineApprovalWorkflow c2Env (newExpense 1 2 50) 0 =
      { newExpense 1 2 50 with
        totalApprovers := 1
        approvalStep := 1
        currentApprover := some 9
        approvedBy := []
        rejectedBy := []
        approvalHistory := [] } := by
  exact (c2_default_init c2Env (newExpense 1 2 50) 0 ⟨some ⟨9, true⟩⟩ rfl (by decide)
    rfl).1 ⟨9, true⟩ rfl rfl

/-- C3, as stated, is false: when workflow re-evaluation throws, the decision
route still persists the approval-history entry and the `approvedBy` append
made before `processApprovalWorkflow` ran, so the stored state differs from
the prior state. -/
theorem c3_counterexample :
    (approvalsPut c3Env c3Exp 5 "approved" none 3).toOption.map
        (fun r => r.approvalHistory.length) = some 1 ∧
      c3Exp.approvalHistory.length = 0 ∧
      (approvalsPut c3Env c3Exp 5 "approved" none 3).toOption.map
        (fun r => r.approvedBy) = some [5] ∧
      c3Exp.approvedBy = [] := by
  decide

/-- C3 amended: when every lookup inside workflow re-evaluation throws, the
helper's catch swallows the error and the route saves the expense with the
history entry and `approvedBy` append already applied; only the advancement
or termination from the failed evaluation is missing. -/
theorem c3_amended (env : Env) (e : Expense) (a : UserId) (comment : Option String)
    (now : Nat) (hdb : env.dbOk = false) (hcur : e.currentApprover = some a)
    (hst : e.status = .pending) :
    approvalsPut env e a "approved" comment now =
      .ok { e with
        approvalHistory := e.approvalHistory ++
          [⟨a, "approved", jsOrStr comment "", e.approvalStep, now⟩]
        approvedBy := e.approvedBy ++ [a] } := by
  simp [approvalsPut, hcur, hst, processApprovalWorkflow, hdb]

theorem c3_witness :
    approvalsPut c3Env c3Exp 5 "approved" none 3 =
      .ok { c3Exp with
        approvalHistory := [⟨5, "approved", "", 1, 3⟩]
        approvedBy := [5] } := by
  exact c3_amended c3Env c3Exp 5 none 3 rfl rfl rfl

/-- C4: a rejection by the current approver of a pending expense is immediate
and unconditional for every environment (hence every approval type): it
appends the rejection to history and `rejectedBy`, sets `status = rejected`,
sets `rejectionReason` to the comment (or "No reason provided" when the
comment is absent or empty), sets `finalApprovalDate`, and performs no
workflow evaluation. -/
theorem c4_reject (env : Env) (e : Expense) (cur : UserId) (comment : Option String)
    (now : Nat) (hcur : e.currentApprover = some cur) (hst : e.status = .pending) :
    approvalsPut env e cur "rejected" comment now =
      .ok { e with
        approvalHistory := e.approvalHistory ++
          [⟨cur, "rejected", jsOrStr comment "", e.approvalStep, now⟩]
        rejectedBy := e.rejectedBy ++ [cur]
        status := .rejected
        rejectionReason := some (jsOrStr comment "No reason provided")
        finalApprovalDate := some now } := by
  simp [approvalsPut, hcur, hst]

theorem c4_witness :
    approvalsPut c4Env c4Exp 5 "rejected" (some "too costly") 2 =
      .ok { c4Exp with
        approvalHistory := [⟨5, "rejected", "too costly", 1, 2⟩]
        rejectedBy := [5]
        status := .rejected
        rejectionReason := some "too costly"
        finalApprovalDate := some 2 } := by
  exact c4_reject c4Env c4Exp 5 (some "too costly") 2 rfl rfl

/-- C9: an admin override succeeds on an expense in any status, including a
terminal one: it appends an override history entry at `approvalStep + 1`,
forces the requested terminal status, sets `finalApprovalDate`, clears
`currentApprover`, and leaves `approvedBy` and `rejectedBy` untouched. -/
theorem c9_override (e : Expense) (actorId : UserId) (action : String)
    (comment : Option String) (now : Nat) :
    (action = "approved" →
      overridePut e actorId "admin" action comment now =
        .ok { e with
          approvalHistory := e.approvalHistory ++
            [⟨actorId, "approved", "[ADMIN OVERRIDE] " ++ jsOrStr comment "No reason provided",
              e.approvalStep + 1, now⟩]
          status := .approved
          finalApprovalDate := some now
          currentApprover := none }) ∧
    (action = "rejected" →
      overridePut e actorId "admin" action comment now =
        .ok { e with
          approvalHistory := e.approvalHistory ++
            [⟨actorId, "rejected", "[ADMIN OVERRIDE] " ++ jsOrStr comment "No reason provided",
              e.approvalStep + 1, now⟩]
          status := .rejected
          finalApprovalDate := some now
          currentApprover := none
          rejectionReason := some (jsOrStr comment "Rejected by admin override") }) := by
  constructor <;> (intro h; subst h; simp [overridePut])

theorem c9_witness :
    overridePut c9Exp 3 "admin" "rejected" none 5 =
      .ok { c9Exp with
        approvalHistory := [⟨3, "rejected", "[ADMIN OVERRIDE] No reason provided", 1, 5⟩]
        status := .rejected
        finalApprovalDate := some 5
        currentApprover := none
        rejectionReason := some "Rejected by admin override" } := by
  exact (c9_override c9Exp 3 "rejected" none 5).2 rfl

/-- C10: when `currentApprover` is null the decision route dereferences it
before the pending-status check, so the request ends in the generic server
error for every status, actor and action; the status check is unreachable. -/
theorem c10_null_current_approver (env : Env) (e : Expense) (actor : UserId)
    (action : String) (comment : Option String) (now : Nat)
    (hcur : e.currentApprover = none) :
    approvalsPut env e actor action comment now = .error .serverError := by
  simp [approvalsPut, hcur]

theorem c10_witness :
    (expensesPost c10Env 1 2 50 0).currentApprover = none ∧
      (expensesPost c10Env 1 2 50 0).status = .approved ∧
      approvalsPut c10Env (expensesPost c10Env 1 2 50 0) 9 "approved" none 1 =
        .error .serverError :=
  ⟨by decide, by decide,
    c10_null_current_approver c10Env (expensesPost c10Env 1 2 50 0) 9 "approved" none 1
      (by decide)⟩

/-- C1, as stated, is false: under the parallel type, when the required
count is unmet and no undecided approver remains, the code does not reject
with "Insufficient approvals" (that branch only covers percentage/hybrid) —
it leaves the expense pending and unchanged.  Concretely: a parallel rule
listing the same required user twice, whose single approver approves; the
claim demands `status = rejected` with reason "Insufficient approvals", the
code yields `status = pending` with no reason. -/
theorem c1_counterexample :
    (approvalsPut parDupEnv (expensesPost parDupEnv 1 2 50 0) 5 "approved" none 1).toOption.map
        Expense.status = some Status.pending ∧
      (approvalsPut parDupEnv (expensesPost parDupEnv 1 2 50 0) 5 "approved" none 1).toOption.map
        Expense.rejectionReason = some none := by
  decide

/-- C1 amended: under the parallel type the processor terminally approves iff
the count of `approvedBy` entries matching a required approver reaches the
required-approver count; otherwise it advances `currentApprover` to the first
approver in neither `approvedBy` nor `rejectedBy`, and when no such approver
remains it leaves the expense unchanged (still pending) — the "Insufficient
approvals" rejection never fires for the parallel type. -/
theorem c1_parallel_amended (env : Env) (e : Expense) (now : Nat)
    (rule : ApprovalRule) (rest : List ApprovalRule) (hdb : env.dbOk = true)
    (hres : resolveRules env.rules e.company e.amountInCompanyCurrency = rule :: rest)
    (hty : rule.approvalType = "parallel") :
    ((requiredOf (sortApprovers rule.approvers)).length ≤
        approvedRequiredCountOf (sortApprovers rule.approvers) e →
      processApprovalWorkflow env e now = approveTerminal e now) ∧
    (¬ ((requiredOf (sortApprovers rule.approvers)).length ≤
        approvedRequiredCountOf (sortApprovers rule.approvers) e) →
      (∀ ap tl, remainingOf (sortApprovers rule.approvers) e = ap :: tl →
        processApprovalWorkflow env e now = { e with currentApprover := some ap.user }) ∧
      (remainingOf (sortApprovers rule.approvers) e = [] →
        processApprovalWorkflow env e now = e)) := by
  have hb := processApprovalWorkflow_ruleCase env e now rule rest hdb hres
  rw [hty] at hb
  rw [hb, processDecision_parallel]
  constructor
  · intro hc
    rw [if_pos hc]
  · intro hc
    rw [if_neg hc]
    constructor
    · intro ap tl hrem
      rw [hrem]
    · intro hrem
      rw [hrem]

theorem c1_witness :
    processApprovalWorkflow parDupEnv parDupExp 9 = parDupExp := by
  have h := c1_parallel_amended parDupEnv parDupExp 9 parDupRule [] rfl (by decide) rfl
  exact (h.2 (by decide)).2 (by decide)

/-- C5, as stated, is false: the code reads the threshold with JS `||`, so a
rule that provides `percentageRequired = 0` is treated as providing 100.
Concretely: threshold 0 and one of two approvers approved (50%); the claim
demands terminal approval (50 ≥ 0), the code stays pending and advances to
the second approver. -/
theorem c5_counterexample :
    pctZeroRule.approvalSettings.percentageRequired = some 0 ∧
      approvalsPut pctZeroEnv (expensesPost pctZeroEnv 1 2 50 0) 5 "approved" none 1 =
        .ok { pctExp with currentApprover := some 6 } ∧
      ({ pctExp with currentApprover := some 6 } : Expense).status = Status.pending ∧
      ({ pctExp with currentApprover := some 6 } : Expense).rejectionReason = none := by
  refine ⟨rfl, ?_, rfl, rfl⟩
  rw [show expensesPost pctZeroEnv 1 2 50 0 = pctC0 from by decide, pctZero_route,
    pctZero_eval]

/-- C5 amended: under the percentage type, with the threshold read as
`percentageRequired` when provided and nonzero and as 100 otherwise (JS `||`),
the processor terminally approves iff `len(approvedBy)/totalApprovers*100`
meets the threshold; otherwise it advances to the first undecided approver,
and on exhaustion it rejects with "Insufficient approvals" (the final
re-comparison cannot succeed, as the same percentage was just found below the
same threshold). -/
theorem c5_percentage_amended (env : Env) (e : Expense) (now : Nat)
    (rule : ApprovalRule) (rest : List ApprovalRule) (hdb : env.dbOk = true)
    (hres : resolveRules env.rules e.company e.amountInCompanyCurrency = rule :: rest)
    (hty : rule.approvalType = "percentage") (_htot : 0 < e.totalApprovers) :
    (jsOrNum rule.approvalSettings.percentageRequired 100 ≤ approvalPercentage e →
      processApprovalWorkflow env e now = approveTerminal e now) ∧
    (¬ jsOrNum rule.approvalSettings.percentageRequired 100 ≤ approvalPercentage e →
      (∀ ap tl, remainingOf (sortApprovers rule.approvers) e = ap :: tl →
        processApprovalWorkflow env e now = { e with currentApprover := some ap.user }) ∧
      (remainingOf (sortApprovers rule.approvers) e = [] →
        processApprovalWorkflow env e now = rejectInsufficient e now)) := by
  have hb := processApprovalWorkflow_ruleCase env e now rule rest hdb hres
  rw [hty] at hb
  rw [hb, processDecision_percentage]
  simp only [List.head?_cons, Option.map_some', Option.some_bind]
  constructor
  · intro hc
    rw [if_pos hc]
  · intro hc
    rw [if_neg hc]
    constructor
    · intro ap tl hrem
      rw [hrem]
    · intro hrem
      rw [hrem]

theorem c5_witness :
    0 < pctExp.totalApprovers ∧
      processApprovalWorkflow pctHalfEnv pctExp 9 = approveTerminal pctExp 9 :=
  ⟨by decide,
    (c5_percentage_amended pctHalfEnv pctExp 9 pctHalfRule [] rfl (by decide) rfl
      (by decide)).1
      (by rw [approvalPercentage_pctExp]; norm_num [pctHalfRule, jsOrNum])⟩

/-- C6: rule resolution considers exactly the company's active rules whose
`amountThreshold` is absent or at most the amount in company currency, selects
a rule maximal under the (priority desc, threshold desc) order — the head of
the descending sort — and returns `none` exactly when no rule matches, which
is an ordinary result, not an error (callers fall back to the default
policy). -/
theorem c6_rule_resolution (rules : List ApprovalRule) (companyId : Nat) (amount : ℚ) :
    (∀ r, resolveRule rules companyId amount = some r →
      r ∈ rules ∧ ruleMatches companyId amount r = true ∧
        ∀ r2 ∈ rules, ruleMatches companyId amount r2 = true → ruleKey r2 ≤ ruleKey r) ∧
    (resolveRule rules companyId amount = none ↔
      ∀ r ∈ rules, ruleMatches companyId amount r = false) := by
  constructor
  · intro r hr
    unfold resolveRule resolveRules at hr
    have hsorted := List.sorted_insertionSort ruleGE
      (rules.filter (ruleMatches companyId amount))
    have hperm := List.perm_insertionSort ruleGE
      (rules.filter (ruleMatches companyId amount))
    cases hs : (rules.filter (ruleMatches companyId amount)).insertionSort ruleGE with
    | nil =>
      rw [hs] at hr
      exact absurd hr (by simp)
    | cons a tl =>
      rw [hs] at hr
      rw [List.head?_cons] at hr
      injection hr with hr
      subst hr
      rw [hs] at hsorted hperm
      have hmem : a ∈ rules.filter (ruleMatches companyId amount) :=
        hperm.mem_iff.mp (List.mem_cons_self a tl)
      have hmem' := List.mem_filter.mp hmem
      refine ⟨hmem'.1, hmem'.2, ?_⟩
      intro r2 hr2 hm2
      have hr2mem : r2 ∈ a :: tl :=
        hperm.mem_iff.mpr (List.mem_filter.mpr ⟨hr2, hm2⟩)
      rcases List.mem_cons.mp hr2mem with heq | h2
      · exact le_of_eq (congrArg ruleKey heq)
      · exact List.rel_of_sorted_cons hsorted r2 h2
  · constructor
    · intro hnone r hr
      unfold resolveRule resolveRules at hnone
      rw [List.head?_eq_none_iff] at hnone
      have hfil : rules.filter (ruleMatches companyId amount) = [] :=
        ((List.perm_insertionSort ruleGE _).symm.trans
          (by rw [hnone])).eq_nil
      have := List.filter_eq_nil_iff.mp hfil r hr
      simpa using this
    · intro hall
      have hfil : rules.filter (ruleMatches companyId amount) = [] :=
        List.filter_eq_nil_iff.mpr (fun a ha => by simp [hall a ha])
      unfold resolveRule resolveRules
      rw [hfil]
      rfl

theorem c6_witness :
    resolveRule [c6RuleA, c6RuleB, c6RuleInactive] 2 50 = some c6RuleB ∧
      c6RuleB ∈ [c6RuleA, c6RuleB, c6RuleInactive] ∧
      ruleMatches 2 50 c6RuleB = true ∧ ruleKey c6RuleA ≤ ruleKey c6RuleB := by
  have h := (c6_rule_resolution [c6RuleA, c6RuleB, c6RuleInactive] 2 50).1 c6RuleB
    (by decide)
  exact ⟨by decide, h.1, h.2.1, h.2.2 c6RuleA (by decide) (by decide)⟩

/-- C7: for every expense reachable through the engine's operations —
creation, edit while pending, decisions, admin overrides — the
`finalApprovalDate` field is set if and only if the status is `approved` or
`rejected`. -/
theorem c7_final_date_iff_terminal (e : Expense) (h : Reachable e) : DateInv e := by
  induction h with
  | create env employee company amount now =>
    exact determineApprovalWorkflow_dateInv env (newExpense employee company amount) now
      rfl rfl
  | edit env e amount now e2 _ hok ih =>
    obtain ⟨hp, rfl⟩ := expensesPut_ok env e amount now e2 hok
    exact determineApprovalWorkflow_dateInv _ _ _ hp (dateInv_pending ih hp)
  | decision env e actor action comment now e2 _ hval hok ih =>
    obtain ⟨hp, hshape⟩ := approvalsPut_ok env e actor action comment now e2 hok
    have hd := dateInv_pending ih hp
    rcases hshape with rfl | rfl
    · exact processApprovalWorkflow_dateInv _ _ _ hp hd
    · simp [DateInv]
  | override e actorId actorRole action comment now e2 _ hok ih =>
    obtain ⟨h1, h2, _, _⟩ := overridePut_ok e actorId actorRole action comment now e2 hok
    by_cases hact : action = "approved" <;> simp [DateInv, h1, h2, hact]

theorem c7_witness : DateInv (expensesPost c7Env 1 2 50 0) :=
  c7_final_date_iff_terminal _ (Reachable.create c7Env 1 2 50 0)

/-- C8, as stated, is false: a rule that lists the same user at two
sequential steps re-offers that user after their approval, so a reachable
expense can hold the same approver in both `approvedBy` and `rejectedBy`.
The trace: create under `seqDupRule`, user 7 approves (and is re-offered),
then user 7 rejects. -/
theorem c8_counterexample :
    Reachable c8Bad ∧ 7 ∈ c8Bad.approvedBy ∧ 7 ∈ c8Bad.rejectedBy ∧
      ¬ (c8Bad.approvedBy ++ c8Bad.rejectedBy).Nodup := by
  refine ⟨?_, by decide, by decide, by decide⟩
  exact Reachable.decision c8Env c8Mid 7 "rejected" none 2 c8Bad
    (Reachable.decision c8Env (expensesPost c8Env 1 2 50 0) 7 "approved" none 1 c8Mid
      (Reachable.create c8Env 1 2 50 0) (Or.inl rfl) rfl)
    (Or.inr rfl) rfl

/-- C8 amended: along every trace in which each decision comes from an
approver not already present in `approvedBy` or `rejectedBy` (the spec's
"normal flow never re-offers a decided approver"), the two lists stay
duplicate-free as a whole, and in particular disjoint.  Without that proviso
the property fails (see the counterexample): the sequential advancement can
re-offer a decided approver when the resolved approver list repeats a user. -/
theorem c8_fresh_disjoint (e : Expense) (h : ReachableFresh e) :
    (e.approvedBy ++ e.rejectedBy).Nodup ∧ e.approvedBy.Disjoint e.rejectedBy := by
  have main : (e.approvedBy ++ e.rejectedBy).Nodup := by
    induction h with
    | create env employee company amount now =>
      rcases determineApprovalWorkflow_arrays env (newExpense employee company amount) now
        with ⟨h1, h2⟩ | ⟨h1, h2⟩ <;>
        simp only [expensesPost] at * <;> rw [h1, h2] <;> simp [newExpense]
    | edit env e amount now e2 _ hok ih =>
      obtain ⟨hp, rfl⟩ := expensesPut_ok env e amount now e2 hok
      rcases determineApprovalWorkflow_arrays env
          { e with amountInCompanyCurrency := amount } now with ⟨h1, h2⟩ | ⟨h1, h2⟩ <;>
        rw [h1, h2]
      · exact ih
      · simp
    | decision env e actor action comment now e2 _ hval hfa hfr hok ih =>
      obtain ⟨hp, hshape⟩ := approvalsPut_ok env e actor action comment now e2 hok
      rcases hshape with rfl | rfl
      · obtain ⟨ha, hr, _⟩ := processApprovalWorkflow_arrays env
          { e with
            approvalHistory := e.approvalHistory ++
              [⟨actor, action, jsOrStr comment "", e.approvalStep, now⟩]
            approvedBy := e.approvedBy ++ [actor] } now
        rw [ha, hr]
        exact nodup_append_insert_left ih hfa hfr
      · exact nodup_append_insert_right ih hfa hfr
    | override e actorId actorRole action comment now e2 _ hok ih =>
      obtain ⟨_, _, ha, hr⟩ := overridePut_ok e actorId actorRole action comment now e2 hok
      rw [ha, hr]
      exact ih
  exact ⟨main, (List.nodup_append.mp main).2.2⟩

theorem c8_witness :
    ((expensesPost c8FreshEnv 1 2 50 0).approvedBy ++
        (expensesPost c8FreshEnv 1 2 50 0).rejectedBy).Nodup ∧
      (expensesPost c8FreshEnv 1 2 50 0).approvedBy.Disjoint
        (expensesPost c8FreshEnv 1 2 50 0).rejectedBy :=
  c8_fresh_disjoint _ (ReachableFresh.create c8FreshEnv 1 2 50 0)

end ExpenseMgmt
